import Mathlib

/-!
Verification of the PINN (physics-informed neural network) training core of
the GradBridge25 lab notebook: the damped-harmonic-oscillator forward task
(simulation) and inverse task (parameter discovery).

The embedding follows the notebook source:
  - `exactSolutionFormula` / `exact_solution` embed the Python function
    `exact_solution(d, w0, t)` (the `assert d < w0` guard becomes an
    `Option`-valued result, `none` modelling the raised `AssertionError`);
  - `FCN` embeds the fully connected network `FCN(1, 1, 32, 3)` (input layer,
    two hidden blocks, output layer, `tanh` activations), with both the
    per-scalar semantics `FCN.apply` and the batched semantics
    `FCN.batchForward` (a `torch.nn.Linear` acts row-wise on an N×d batch);
  - `gradSumOnes` embeds `torch.autograd.grad(out, t, torch.ones_like(out))`
    on a batched tensor: component j is the partial derivative of the sum of
    all outputs with respect to input row j;
  - `forwardLossCode` / `inverseLossCode` embed the per-iteration loss of the
    Task-1 and Task-2 training cells; `specForwardLoss` / `specInverseLoss`
    restate the loss the way the specification describes it;
  - `runLoop` embeds `for i in range(15001): body` with an iteration counter;
  - `InvState` / `inverseStep` and `FwdRunState` / `forwardStepFull` /
    `InvRunState` / `inverseStepFull` embed the mutable training state of the
    two loops, with the gradient computation and the Adam parameter update
    kept abstract (they are supplied by the differentiation substrate).
-/

namespace GradBridge

noncomputable section

/-! ## The analytical solution (`exact_solution` in the notebook) -/

/-- `w = np.sqrt(w0**2 - d**2)` in `exact_solution`. -/
def oscW (d w0 : ℝ) : ℝ := Real.sqrt (w0 ^ 2 - d ^ 2)

/-- `phi = np.arctan(-d/w)` in `exact_solution`. -/
def oscPhi (d w0 : ℝ) : ℝ := Real.arctan (-d / oscW d w0)

/-- `A = 1/(2*np.cos(phi))` in `exact_solution`. -/
def oscA (d w0 : ℝ) : ℝ := 1 / (2 * Real.cos (oscPhi d w0))

/-- The value `u = exp(-d*t) * 2 * A * cos(phi + w*t)` returned by
`exact_solution` once the assertion `d < w0` has passed. -/
def exactSolutionFormula (d w0 t : ℝ) : ℝ :=
  Real.exp (-d * t) * 2 * oscA d w0 * Real.cos (oscPhi d w0 + oscW d w0 * t)

/-- `exact_solution(d, w0, t)` on a scalar input: the `assert d < w0` raises
(modelled as `none`) unless the guard holds, in which case the closed-form
value is returned. -/
def exact_solution (d w0 t : ℝ) : Option ℝ :=
  if d < w0 then some (exactSolutionFormula d w0 t) else none

/-- `exact_solution(d, w0, ts)` on a tensor of m time points: the assertion
is checked once for the whole call; on success every entry is the closed-form
value. -/
def exactSolutionBatch {m : ℕ} (d w0 : ℝ) (ts : Fin m → ℝ) : Option (Fin m → ℝ) :=
  if d < w0 then some (fun i => exactSolutionFormula d w0 (ts i)) else none

/-! ## The fully connected network `FCN(1, 1, 32, 3)` -/

/-- A `torch.nn.Linear` layer on a single feature vector:
`y r = (sum c, W r c * x c) + b r`. -/
def linearLayer {ni no : ℕ} (W : Fin no → Fin ni → ℝ) (b : Fin no → ℝ)
    (x : Fin ni → ℝ) : Fin no → ℝ :=
  fun r => (∑ c, W r c * x c) + b r

/-- Pointwise `torch.nn.Tanh` on a feature vector. -/
def tanhVec {m : ℕ} (x : Fin m → ℝ) : Fin m → ℝ :=
  fun r => Real.tanh (x r)

/-- A `torch.nn.Linear` layer on an N-row batch: each output row is the layer
applied to the corresponding input row (the semantics of `x @ W.T + b`). -/
def batchLinear {N ni no : ℕ} (W : Fin no → Fin ni → ℝ) (b : Fin no → ℝ)
    (X : Fin N → Fin ni → ℝ) : Fin N → Fin no → ℝ :=
  fun r => linearLayer W b (X r)

/-- Pointwise `torch.nn.Tanh` on an N-row batch. -/
def batchTanh {N m : ℕ} (X : Fin N → Fin m → ℝ) : Fin N → Fin m → ℝ :=
  fun r => tanhVec (X r)

/-- The parameters of `FCN(N_INPUT=1, N_OUTPUT=1, N_HIDDEN=32, N_LAYERS=3)`:
`fcs` (input layer), two hidden blocks `fch` (`N_LAYERS - 1 = 2`), and the
output layer `fce`. -/
structure FCN where
  fcsW : Fin 32 → Fin 1 → ℝ
  fcsB : Fin 32 → ℝ
  fch0W : Fin 32 → Fin 32 → ℝ
  fch0B : Fin 32 → ℝ
  fch1W : Fin 32 → Fin 32 → ℝ
  fch1B : Fin 32 → ℝ
  fceW : Fin 1 → Fin 32 → ℝ
  fceB : Fin 1 → ℝ

/-- `FCN.forward` on a single input row: `fcs` + tanh, two hidden blocks with
tanh, then `fce`. -/
def FCN.forward (p : FCN) (x : Fin 1 → ℝ) : Fin 1 → ℝ :=
  linearLayer p.fceW p.fceB
    (tanhVec (linearLayer p.fch1W p.fch1B
      (tanhVec (linearLayer p.fch0W p.fch0B
        (tanhVec (linearLayer p.fcsW p.fcsB x))))))

/-- `FCN.forward` on an N×1 batch, composed from the batched layer semantics. -/
def FCN.batchForward {N : ℕ} (p : FCN) (X : Fin N → Fin 1 → ℝ) : Fin N → Fin 1 → ℝ :=
  batchLinear p.fceW p.fceB
    (batchTanh (batchLinear p.fch1W p.fch1B
      (batchTanh (batchLinear p.fch0W p.fch0B
        (batchTanh (batchLinear p.fcsW p.fcsB X))))))

/-- The network as a scalar-to-scalar map `NN(t; θ)`. -/
def FCN.apply (p : FCN) (t : ℝ) : ℝ := p.forward (fun _ => t) 0

/-- The network on an N-point batch `t.view(-1, 1)`, squeezed back to a
vector of N scalar outputs. -/
def FCN.batch {N : ℕ} (p : FCN) (t : Fin N → ℝ) : Fin N → ℝ :=
  fun r => p.batchForward (fun q _ => t q) r 0

/-! ## Reverse-mode differentiation with an all-ones seed -/

/-- `torch.autograd.grad(g(t), t, torch.ones_like(g(t)))` for a batched map
`g` and an N-vector input `t`: component `j` is the derivative of the sum of
all output components with respect to the j-th input component, the other
components held fixed. -/
def gradSumOnes {n : ℕ} (g : (Fin n → ℝ) → (Fin n → ℝ)) (t : Fin n → ℝ) :
    Fin n → ℝ :=
  fun j => deriv (fun x => ∑ i, g (Function.update t j x) i) (t j)

/-! ## Fixed training data and hyperparameters of the two training cells -/

/-- `t_boundary = torch.tensor(0.).view(-1,1)`: the single boundary point. -/
def tBoundaryVec : Fin 1 → ℝ := fun _ => 0

/-- `t_physics = torch.linspace(0,1,30).view(-1,1)`: the 30 collocation
points, the i-th being `i / 29`. -/
def tPhysics : Fin 30 → ℝ := fun i => (i : ℝ) / 29

/-- `t_test = torch.linspace(0,1,300).view(-1,1)`. -/
def tTest : Fin 300 → ℝ := fun i => (i : ℝ) / 299

/-- `d = 2` in `d, w0 = 2, 20`. -/
def dConst : ℝ := 2

/-- `w0 = 20` in `d, w0 = 2, 20`. -/
def w0Const : ℝ := 20

/-- `mu = 2*d` (forward task; the fixed damping coefficient). -/
def muF : ℝ := 2 * dConst

/-- `k = w0**2` (spring constant, both tasks). -/
def kF : ℝ := w0Const ^ 2

/-- `lambda1 = 1e-1` (forward task). -/
def lambda1F : ℝ := 1e-1

/-- `lambda2 = 1e-4` (forward task). -/
def lambda2F : ℝ := 1e-4

/-- `lambda1 = 1e4` (inverse task data-loss weight). -/
def lambdaInv : ℝ := 1e4

/-! ## The per-iteration losses, as the code computes them -/

/-- The loss of one iteration of the Task-1 (forward) training loop, exactly
as the cell computes it: `loss1 = (squeeze(pinn(t_boundary)) - 1)**2`,
`loss2 = (squeeze(autograd.grad(u, t_boundary, ones)) - 0)**2`, `loss3` the
mean over `t_physics` of `(d2udt2 + mu*dudt + k*u)**2` with the derivatives
obtained by two all-ones reverse-mode passes, combined as
`loss1 + lambda1*loss2 + lambda2*loss3`. -/
def forwardLossCode (p : FCN) : ℝ :=
  let u0 := p.batch tBoundaryVec
  let loss1 := (u0 0 - 1) ^ 2
  let dudt0 := gradSumOnes (fun v => p.batch v) tBoundaryVec
  let loss2 := (dudt0 0 - 0) ^ 2
  let u := p.batch tPhysics
  let dudt := gradSumOnes (fun v => p.batch v) tPhysics
  let d2udt2 := gradSumOnes (fun v => gradSumOnes (fun x => p.batch x) v) tPhysics
  let loss3 := (∑ i, (d2udt2 i + muF * dudt i + kF * u i) ^ 2) / 30
  loss1 + lambda1F * loss2 + lambda2F * loss3

/-- The loss of one iteration of the Task-2 (inverse) training loop, exactly
as the cell computes it: the mean-squared physics residual over `t_physics`
(with the current learnable `mu` and `k = 400`), plus `1e4` times the
mean-squared error of the network against the noisy observations. -/
def inverseLossCode (p : FCN) (mu : ℝ) (tObs uObs : Fin 40 → ℝ) : ℝ :=
  let u := p.batch tPhysics
  let dudt := gradSumOnes (fun v => p.batch v) tPhysics
  let d2udt2 := gradSumOnes (fun v => gradSumOnes (fun x => p.batch x) v) tPhysics
  let loss1 := (∑ i, (d2udt2 i + mu * dudt i + kF * u i) ^ 2) / 30
  let uo := p.batch tObs
  let loss2 := (∑ j, (uo j - uObs j) ^ 2) / 40
  loss1 + lambdaInv * loss2

/-! ## The losses as the specification states them -/

/-- Boundary value term of the spec: the approximator at t = 0 compared to
the prescribed initial value u(0) = 1. -/
def boundaryValueTerm (p : FCN) : ℝ := (p.apply 0 - 1) ^ 2

/-- Boundary derivative term of the spec: the first derivative of the
approximator at t = 0 compared to the prescribed initial velocity 0. -/
def boundaryDerivTerm (p : FCN) : ℝ := (deriv p.apply 0 - 0) ^ 2

/-- Physics term of the spec, forward task: the mean over the collocation
points of the squared ODE residual m·u'' + μ·u' + k·u with m = 1, μ = 4,
k = 400. -/
def physicsTermForward (p : FCN) : ℝ :=
  (∑ i, (1 * deriv (deriv p.apply) (tPhysics i) + 4 * deriv p.apply (tPhysics i) +
      400 * p.apply (tPhysics i)) ^ 2) / 30

/-- Physics term of the spec, inverse task: the same mean-squared residual
with the current learnable μ. -/
def physicsTermInverse (p : FCN) (mu : ℝ) : ℝ :=
  (∑ i, (1 * deriv (deriv p.apply) (tPhysics i) + mu * deriv p.apply (tPhysics i) +
      400 * p.apply (tPhysics i)) ^ 2) / 30

/-- Data term of the spec: the mean-squared error between the approximator at
the observation times and the noisy observed values. -/
def dataTerm (p : FCN) (tObs uObs : Fin 40 → ℝ) : ℝ :=
  (∑ j, (p.apply (tObs j) - uObs j) ^ 2) / 40

/-- The forward loss as the specification writes it:
boundary_value_term + λ₁·boundary_derivative_term + λ₂·physics_term with
λ₁ = 0.1 and λ₂ = 1e-4. -/
def specForwardLoss (p : FCN) : ℝ :=
  boundaryValueTerm p + (1 / 10) * boundaryDerivTerm p +
    (1 / 10000) * physicsTermForward p

/-- The inverse loss as the specification writes it:
physics_term + λ·data_term with λ = 1e4. -/
def specInverseLoss (p : FCN) (mu : ℝ) (tObs uObs : Fin 40 → ℝ) : ℝ :=
  physicsTermInverse p mu + 10000 * dataTerm p tObs uObs

/-! ## First and second derivative of the analytical solution -/

/-- The first time-derivative of `exactSolutionFormula`. -/
def oscU1 (d w0 t : ℝ) : ℝ :=
  Real.exp (-d * t) * 2 * oscA d w0 *
    (-d * Real.cos (oscPhi d w0 + oscW d w0 * t) -
      oscW d w0 * Real.sin (oscPhi d w0 + oscW d w0 * t))

/-- The second time-derivative of `exactSolutionFormula`. -/
def oscU2 (d w0 t : ℝ) : ℝ :=
  Real.exp (-d * t) * 2 * oscA d w0 *
    ((d ^ 2 - oscW d w0 ^ 2) * Real.cos (oscPhi d w0 + oscW d w0 * t) +
      2 * d * oscW d w0 * Real.sin (oscPhi d w0 + oscW d w0 * t))

/-! ## The training loop and its state -/

/-- `for i in range(15001): body`, with the number of executed body
iterations recorded alongside the evolving state. The loop has no break,
return, or convergence test; the body is run once per element of the range. -/
def runLoop {S : Type} (step : S → S) (s0 : S) : S × ℕ :=
  (List.range 15001).foldl (fun q _ => (step q.1, q.2 + 1)) (s0, 0)

/-- The Task-1 cell: `u_exact = exact_solution(d, w0, t_test)` is evaluated
before the training loop, so the loop runs only if the assertion inside
`exact_solution` passes; otherwise the cell stops with no value and no
optimizer step. -/
def forwardProgram {S : Type} (d w0 : ℝ) (step : S → S) (s0 : S) :
    Option (S × ℕ) :=
  (exactSolutionBatch d w0 tTest).map (fun _ => runLoop step s0)

/-- `mu = torch.nn.Parameter(torch.zeros(1, ...))`: initial value of the
learnable damping coefficient in the inverse task. -/
def muInit : ℝ := 0

/-- Names of the leaf tensors owned by the optimizer: the eight
weight/bias tensors of `FCN(1,1,32,3)` and, in the inverse task, the
learnable scalar `mu`. -/
inductive ParamName where
  | fcsW
  | fcsB
  | fch0W
  | fch0B
  | fch1W
  | fch1B
  | fceW
  | fceB
  | muP

/-- `list(pinn.parameters())`: the eight network tensors. -/
def pinnParamNames : List ParamName :=
  [ParamName.fcsW, ParamName.fcsB, ParamName.fch0W, ParamName.fch0B,
   ParamName.fch1W, ParamName.fch1B, ParamName.fceW, ParamName.fceB]

/-- Forward task: `torch.optim.Adam(pinn.parameters(), lr=1e-3)` — the
optimizer owns the network tensors only. -/
def forwardOptimParams : List ParamName := pinnParamNames

/-- Inverse task: `torch.optim.Adam(list(pinn.parameters()) + [mu], lr=1e-3)`
— the same single optimizer owns the network tensors and `mu`. -/
def inverseOptimParams : List ParamName := pinnParamNames ++ [ParamName.muP]

/-- The physical constants (m, μ, k) the forward loss uses at iteration i.
They are bound once before the loop (`mu, k = 2*d, w0**2`, with m implicit
and equal to 1) and no statement of the loop body rebinds them, so the value
does not depend on i. -/
def forwardConstsAt (_i : ℕ) : ℝ × ℝ × ℝ := (1, muF, kF)

/-- Mutable state of the inverse training loop: the network parameters θ,
the learnable scalar μ, and the recorded μ-history `mus`. -/
structure InvState where
  net : FCN
  mu : ℝ
  mus : List ℝ

/-- One iteration of the inverse loop, with the loss-gradient computation `G`
and the Adam update `U` of the optimizer abstracted: a single optimizer step
produces the new (θ, μ) pair from the gradients and the previous (θ, μ), and
the new μ is appended to the history. -/
def inverseStep (G : InvState → FCN × ℝ) (U : FCN × ℝ → FCN × ℝ → FCN × ℝ)
    (s : InvState) : InvState :=
  let pm := U (G s) (s.net, s.mu)
  { net := pm.1, mu := pm.2, mus := s.mus ++ [pm.2] }

/-- The complete per-run state of the forward loop, including the data the
body reads: the boundary point, the collocation points, and the network. -/
structure FwdRunState where
  tB : Fin 1 → ℝ
  tPhys : Fin 30 → ℝ
  net : FCN

/-- One iteration of the forward loop over the full state: the optimizer step
replaces the network parameters; nothing else is written. -/
def forwardStepFull (G : FwdRunState → FCN) (U : FCN → FCN → FCN)
    (s : FwdRunState) : FwdRunState :=
  { s with net := U (G s) s.net }

/-- The complete per-run state of the inverse loop, including the data the
body reads: collocation points, observation times, observed values, and the
mutable (θ, μ, mus). -/
structure InvRunState where
  tPhys : Fin 30 → ℝ
  tObs : Fin 40 → ℝ
  uObs : Fin 40 → ℝ
  net : FCN
  mu : ℝ
  mus : List ℝ

/-- One iteration of the inverse loop over the full state: the optimizer step
replaces θ and μ and appends to the μ-history; the data fields are only
read. -/
def inverseStepFull (G : InvRunState → FCN × ℝ)
    (U : FCN × ℝ → FCN × ℝ → FCN × ℝ) (s : InvRunState) : InvRunState :=
  let pm := U (G s) (s.net, s.mu)
  { s with net := pm.1, mu := pm.2, mus := s.mus ++ [pm.2] }

/-- `u_obs = exact_solution(d, w0, t_obs) + 0.04*torch.randn_like(t_obs)`
with `d, w0 = 2, 20`: the observations are generated once, before the
inverse training loop, from the analytical solution plus scaled Gaussian
noise. -/
def mkUObs (noise tobs : Fin 40 → ℝ) : Option (Fin 40 → ℝ) :=
  (exactSolutionBatch 2 20 tobs).map (fun u j => u j + 0.04 * noise j)

/-- A function `f` is an execution trace of the loop with body `step` from
initial state `s0`: state n+1 is obtained from state n by one body
iteration. -/
def IsRunOf {S : Type} (step : S → S) (s0 : S) (f : ℕ → S) : Prop :=
  f 0 = s0 ∧ ∀ n, f (n + 1) = step (f n)

/-- The all-zero network (a concrete parameter setting). -/
def zeroFCN : FCN :=
  ⟨fun _ _ => 0, fun _ => 0, fun _ _ => 0, fun _ => 0, fun _ _ => 0,
   fun _ => 0, fun _ _ => 0, fun _ => 0⟩

/-- A concrete initial forward-loop state. -/
def fwdS0 : FwdRunState := ⟨fun _ => 0, fun _ => 0, zeroFCN⟩

/-- A concrete gradient oracle (reads the current network). -/
def idG : FwdRunState → FCN := fun s => s.net

/-- A concrete parameter update (keeps the parameters). -/
def idU : FCN → FCN → FCN := fun _ q => q

/-- The concrete forward run generated by iterating the loop body. -/
def fwdRunW : ℕ → FwdRunState := fun n => (forwardStepFull idG idU)^[n] fwdS0

end

end GradBridge

namespace GradBridge

/-! ## Helper lemmas: batching and the all-ones vector-Jacobian product -/

/-- Row r of the batched network is the scalar network at input row r. -/
theorem FCN.batch_eq (p : FCN) {N : ℕ} (t : Fin N → ℝ) (r : Fin N) :
    p.batch t r = p.apply (t r) := rfl

/-- For a map applied independently to each row, the all-ones reverse-mode
pass returns exactly the per-point derivative. -/
theorem gradSumOnes_pointwise (f : ℝ → ℝ) {n : ℕ} (t : Fin n → ℝ) (j : Fin n) :
    gradSumOnes (fun v i => f (v i)) t j = deriv f (t j) := by
  have key : (fun x => ∑ i, f (Function.update t j x i)) =
      fun x => f x + ∑ i ∈ Finset.univ \ {j}, f (t i) := by
    funext x
    have h1 : ∀ i, f (Function.update t j x i) =
        Function.update (fun i => f (t i)) j (f x) i := by
      intro i
      by_cases h : i = j
      · subst h; simp
      · simp [Function.update_apply, h]
    rw [Finset.sum_congr rfl fun i _ => h1 i]
    exact Finset.sum_update_of_mem (Finset.mem_univ j) _ _
  simp only [gradSumOnes]
  rw [key, deriv_add_const]

/-- Two all-ones reverse-mode passes on a row-independent map return the
per-point second derivative. -/
theorem gradSumOnes_second (f : ℝ → ℝ) {n : ℕ} (t : Fin n → ℝ) (j : Fin n) :
    gradSumOnes (fun v => gradSumOnes (fun x i => f (x i)) v) t j =
      deriv (deriv f) (t j) := by
  have h1 : (fun v : Fin n → ℝ => gradSumOnes (fun x i => f (x i)) v) =
      fun v i => deriv f (v i) := by
    funext v i
    exact gradSumOnes_pointwise f v i
  rw [h1]
  exact gradSumOnes_pointwise (deriv f) t j

/-- The batched network, seen as a map on the input vector, is the scalar
network applied row-wise. -/
theorem FCN.batch_fun_eq (p : FCN) (N : ℕ) :
    (fun v : Fin N → ℝ => p.batch v) = fun v i => p.apply (v i) := rfl

/-! ## Calculus of the analytical solution -/

/-- The closed-form solution has derivative `oscU1` everywhere. -/
theorem hasDerivAt_exactSolutionFormula (d w0 t : ℝ) :
    HasDerivAt (exactSolutionFormula d w0) (oscU1 d w0 t) t := by
  have hlin : HasDerivAt (fun s : ℝ => -d * s) (-d) t := by
    simpa using (hasDerivAt_id t).const_mul (-d)
  have hE : HasDerivAt (fun s : ℝ => Real.exp (-d * s))
      (Real.exp (-d * t) * -d) t := hlin.exp
  have harg : HasDerivAt (fun s : ℝ => oscPhi d w0 + oscW d w0 * s)
      (oscW d w0) t := by
    simpa using ((hasDerivAt_id t).const_mul (oscW d w0)).const_add (oscPhi d w0)
  have hC : HasDerivAt (fun s : ℝ => Real.cos (oscPhi d w0 + oscW d w0 * s))
      (-Real.sin (oscPhi d w0 + oscW d w0 * t) * oscW d w0) t := harg.cos
  have h := ((hE.mul_const 2).mul_const (oscA d w0)).mul hC
  have heq : exactSolutionFormula d w0 = fun s =>
      Real.exp (-d * s) * 2 * oscA d w0 *
        Real.cos (oscPhi d w0 + oscW d w0 * s) := rfl
  rw [heq]
  convert h using 1
  unfold oscU1
  ring

/-- `oscU1` has derivative `oscU2` everywhere. -/
theorem hasDerivAt_oscU1 (d w0 t : ℝ) :
    HasDerivAt (oscU1 d w0) (oscU2 d w0 t) t := by
  have hlin : HasDerivAt (fun s : ℝ => -d * s) (-d) t := by
    simpa using (hasDerivAt_id t).const_mul (-d)
  have hE : HasDerivAt (fun s : ℝ => Real.exp (-d * s))
      (Real.exp (-d * t) * -d) t := hlin.exp
  have harg : HasDerivAt (fun s : ℝ => oscPhi d w0 + oscW d w0 * s)
      (oscW d w0) t := by
    simpa using ((hasDerivAt_id t).const_mul (oscW d w0)).const_add (oscPhi d w0)
  have hcos : HasDerivAt (fun s : ℝ => Real.cos (oscPhi d w0 + oscW d w0 * s))
      (-Real.sin (oscPhi d w0 + oscW d w0 * t) * oscW d w0) t := harg.cos
  have hsin : HasDerivAt (fun s : ℝ => Real.sin (oscPhi d w0 + oscW d w0 * s))
      (Real.cos (oscPhi d w0 + oscW d w0 * t) * oscW d w0) t := harg.sin
  have hg : HasDerivAt (fun s : ℝ =>
      -d * Real.cos (oscPhi d w0 + oscW d w0 * s) -
        oscW d w0 * Real.sin (oscPhi d w0 + oscW d w0 * s))
      (-d * (-Real.sin (oscPhi d w0 + oscW d w0 * t) * oscW d w0) -
        oscW d w0 * (Real.cos (oscPhi d w0 + oscW d w0 * t) * oscW d w0)) t :=
    (hcos.const_mul (-d)).sub (hsin.const_mul (oscW d w0))
  have h := ((hE.mul_const 2).mul_const (oscA d w0)).mul hg
  have heq : oscU1 d w0 = fun s =>
      Real.exp (-d * s) * 2 * oscA d w0 *
        (-d * Real.cos (oscPhi d w0 + oscW d w0 * s) -
          oscW d w0 * Real.sin (oscPhi d w0 + oscW d w0 * s)) := rfl
  rw [heq]
  convert h using 1
  unfold oscU2
  ring

/-- The derivative of the closed-form solution, as a function. -/
theorem deriv_exactSolutionFormula (d w0 : ℝ) :
    deriv (exactSolutionFormula d w0) = oscU1 d w0 :=
  funext fun t => (hasDerivAt_exactSolutionFormula d w0 t).deriv

/-- The second derivative of the closed-form solution, as a function. -/
theorem deriv_oscU1 (d w0 : ℝ) : deriv (oscU1 d w0) = oscU2 d w0 :=
  funext fun t => (hasDerivAt_oscU1 d w0 t).deriv

/-- In the under-damped regime the square of `w` is `w0² - d²`. -/
theorem oscW_sq (d w0 : ℝ) (h1 : -w0 < d) (h2 : d < w0) :
    oscW d w0 ^ 2 = w0 ^ 2 - d ^ 2 := by
  have hpos : 0 < w0 ^ 2 - d ^ 2 := by nlinarith
  exact Real.sq_sqrt (le_of_lt hpos)

/-- In the under-damped regime `w` is positive. -/
theorem oscW_pos (d w0 : ℝ) (h1 : -w0 < d) (h2 : d < w0) : 0 < oscW d w0 := by
  have hpos : 0 < w0 ^ 2 - d ^ 2 := by nlinarith
  exact Real.sqrt_pos.mpr hpos

/-- The cosine of the phase is always positive (arctan lands in
(-π/2, π/2)). -/
theorem cos_oscPhi_pos (d w0 : ℝ) : 0 < Real.cos (oscPhi d w0) := by
  unfold oscPhi
  exact Real.cos_arctan_pos _

/-- The closed-form solution takes the value 1 at t = 0. -/
theorem exactSolutionFormula_at_zero (d w0 : ℝ) :
    exactSolutionFormula d w0 0 = 1 := by
  have hc : Real.cos (oscPhi d w0) ≠ 0 := ne_of_gt (cos_oscPhi_pos d w0)
  unfold exactSolutionFormula oscA
  rw [mul_zero, mul_zero, add_zero, Real.exp_zero]
  field_simp

/-- In the under-damped regime the first derivative vanishes at t = 0. -/
theorem oscU1_at_zero (d w0 : ℝ) (h1 : -w0 < d) (h2 : d < w0) :
    oscU1 d w0 0 = 0 := by
  have hw : oscW d w0 ≠ 0 := ne_of_gt (oscW_pos d w0 h1 h2)
  have hS : Real.sqrt (1 + (-d / oscW d w0) ^ 2) ≠ 0 := by
    positivity
  unfold oscU1 oscPhi
  rw [mul_zero, mul_zero, add_zero, Real.exp_zero,
    Real.cos_arctan, Real.sin_arctan]
  field_simp
  ring

/-- In the under-damped regime the ODE residual of the closed-form solution
vanishes identically. -/
theorem residual_eq_zero (d w0 t : ℝ) (h1 : -w0 < d) (h2 : d < w0) :
    1 * oscU2 d w0 t + 2 * d * oscU1 d w0 t +
      w0 ^ 2 * exactSolutionFormula d w0 t = 0 := by
  have hw2 := oscW_sq d w0 h1 h2
  have key : 1 * oscU2 d w0 t + 2 * d * oscU1 d w0 t +
      w0 ^ 2 * exactSolutionFormula d w0 t =
      (Real.exp (-d * t) * 2 * oscA d w0 *
        Real.cos (oscPhi d w0 + oscW d w0 * t)) *
        (w0 ^ 2 - d ^ 2 - oscW d w0 ^ 2) := by
    unfold oscU1 oscU2 exactSolutionFormula
    ring
  rw [key, hw2]
  ring

/-! ## Loss aggregation: code form versus spec form -/

/-- The forward-task per-iteration loss, as the code computes it, equals the
loss as the specification writes it. -/
theorem forwardLossCode_eq (p : FCN) : forwardLossCode p = specForwardLoss p := by
  have hb : (fun v : Fin 1 → ℝ => p.batch v) = fun v i => p.apply (v i) := rfl
  have hp : (fun v : Fin 30 → ℝ => p.batch v) = fun v i => p.apply (v i) := rfl
  have hm : muF = 4 := by norm_num [muF, dConst]
  have hk : kF = 400 := by norm_num [kF, w0Const]
  have hl1 : lambda1F = 1 / 10 := by norm_num [lambda1F]
  have hl2 : lambda2F = 1 / 10000 := by norm_num [lambda2F]
  simp only [forwardLossCode, specForwardLoss, boundaryValueTerm,
    boundaryDerivTerm, physicsTermForward, hb, hp, gradSumOnes_pointwise,
    gradSumOnes_second, FCN.batch_eq, hm, hk, hl1, hl2, one_mul]
  norm_num [tBoundaryVec]

/-- The inverse-task per-iteration loss, as the code computes it, equals the
loss as the specification writes it. -/
theorem inverseLossCode_eq (p : FCN) (mu : ℝ) (tObs uObs : Fin 40 → ℝ) :
    inverseLossCode p mu tObs uObs = specInverseLoss p mu tObs uObs := by
  have hp : (fun v : Fin 30 → ℝ => p.batch v) = fun v i => p.apply (v i) := rfl
  have hk : kF = 400 := by norm_num [kF, w0Const]
  have hl : lambdaInv = 10000 := by norm_num [lambdaInv]
  simp only [inverseLossCode, specInverseLoss, physicsTermInverse, dataTerm,
    hp, gradSumOnes_pointwise, gradSumOnes_second, FCN.batch_eq, hk, hl,
    one_mul]

/-! ## The training loop -/

/-- Folding the counting body over any index list iterates the step
list-length many times and counts the iterations. -/
theorem foldl_count {S : Type} (step : S → S) :
    ∀ (l : List ℕ) (s : S) (c : ℕ),
      l.foldl (fun q _ => (step q.1, q.2 + 1)) (s, c) =
        (step^[l.length] s, c + l.length) := by
  intro l
  induction l with
  | nil => intro s c; simp
  | cons a l ih =>
    intro s c
    rw [List.foldl_cons, ih]
    simp only [List.length_cons, Function.iterate_succ_apply, Prod.mk.injEq]
    exact ⟨trivial, by omega⟩

/-- `for i in range(15001)` executes the body exactly 15001 times, for every
body and every initial state, and the final state is the 15001-fold iterate:
the loop can only terminate by exhausting the range. -/
theorem runLoop_spec {S : Type} (step : S → S) (s0 : S) :
    runLoop step s0 = (step^[15001] s0, 15001) := by
  unfold runLoop
  rw [foldl_count step (List.range 15001) s0 0, List.length_range, Nat.zero_add]

/-- Two traces of the same loop body from the same initial state agree at
every iteration. -/
theorem run_unique {S : Type} (step : S → S) (s0 : S) (f g : ℕ → S)
    (hf : IsRunOf step s0 f) (hg : IsRunOf step s0 g) (n : ℕ) : f n = g n := by
  induction n with
  | zero => rw [hf.1, hg.1]
  | succ n ih => rw [hf.2, hg.2, ih]

/-! ## Frame lemmas: what an iteration does and does not write -/

/-- Any number of forward-loop iterations leaves the boundary point and the
collocation points unchanged. -/
theorem forwardIter_frame (G : FwdRunState → FCN) (U : FCN → FCN → FCN)
    (s : FwdRunState) (n : ℕ) :
    ((forwardStepFull G U)^[n] s).tB = s.tB ∧
      ((forwardStepFull G U)^[n] s).tPhys = s.tPhys := by
  induction n with
  | zero => exact ⟨rfl, rfl⟩
  | succ n ih =>
    rw [Function.iterate_succ_apply']
    simp only [forwardStepFull]
    exact ih

/-- Any number of inverse-loop iterations leaves the collocation points, the
observation times, and the observed values unchanged. -/
theorem inverseIter_frame (G : InvRunState → FCN × ℝ)
    (U : FCN × ℝ → FCN × ℝ → FCN × ℝ) (s : InvRunState) (n : ℕ) :
    ((inverseStepFull G U)^[n] s).tPhys = s.tPhys ∧
      ((inverseStepFull G U)^[n] s).tObs = s.tObs ∧
      ((inverseStepFull G U)^[n] s).uObs = s.uObs := by
  induction n with
  | zero => exact ⟨rfl, rfl, rfl⟩
  | succ n ih =>
    rw [Function.iterate_succ_apply']
    simp only [inverseStepFull]
    exact ih

/-- The observations are the analytical solution at the observation times
plus 0.04-scaled noise (d = 2 < w0 = 20, so the assertion passes). -/
theorem mkUObs_eq (noise tobs : Fin 40 → ℝ) :
    mkUObs noise tobs =
      some (fun j => exactSolutionFormula 2 20 (tobs j) + 0.04 * noise j) := by
  unfold mkUObs exactSolutionBatch
  rw [if_pos (by norm_num : (2 : ℝ) < 20)]
  rfl

/-! ## The claims -/

/-- Claim C1: at every iteration of the forward task the computed loss equals
(NN(0;θ) − 1)² + λ₁·(dNN/dt(0;θ) − 0)² + λ₂·mean over the collocation points
of (m·NN'' + μ·NN' + k·NN)², with λ₁ = 0.1, λ₂ = 1e-4, m = 1, μ = 4,
k = 400: the boundary value term compares the approximator at t = 0 to
u(0) = 1, the boundary derivative term compares its first derivative at
t = 0 to 0, and the physics term is the mean-squared ODE residual over all
30 collocation points. -/
theorem claim_C1_forward_loss (p : FCN) : forwardLossCode p = specForwardLoss p :=
  forwardLossCode_eq p

/-- Claim C2: at every iteration of the inverse task the computed loss equals
physics_term + λ·data_term with λ = 1e4, where the physics term is the
mean-squared ODE residual over the collocation points with the current
learnable μ, and the data term is the mean-squared error of the approximator
at the observation times against the noisy observed values; the equality
also shows no boundary term contributes. -/
theorem claim_C2_inverse_loss (p : FCN) (mu : ℝ) (tObs uObs : Fin 40 → ℝ) :
    inverseLossCode p mu tObs uObs = specInverseLoss p mu tObs uObs :=
  inverseLossCode_eq p mu tObs uObs

/-- Claim C3 (amended): for every d, w0 with −w0 < d < w0 (in particular
d = 2, w0 = 20, m = 1, μ = 2d, k = w0²) the call `exact_solution d w0 t`
returns the closed-form value, that value satisfies the governing ODE
exactly — so |m·u'' + μ·u' + k·u| < 1e-6 at every t — and the initial
conditions u(0) = 1, u'(0) = 0 hold. -/
theorem claim_C3_exact_solution (d w0 t : ℝ) (h1 : -w0 < d) (h2 : d < w0) :
    exact_solution d w0 t = some (exactSolutionFormula d w0 t) ∧
      |1 * deriv (deriv (exactSolutionFormula d w0)) t +
        2 * d * deriv (exactSolutionFormula d w0) t +
        w0 ^ 2 * exactSolutionFormula d w0 t| < 1 / 1000000 ∧
      exactSolutionFormula d w0 0 = 1 ∧
      deriv (exactSolutionFormula d w0) 0 = 0 := by
  refine ⟨?_, ?_, exactSolutionFormula_at_zero d w0, ?_⟩
  · unfold exact_solution
    rw [if_pos h2]
  · rw [deriv_exactSolutionFormula, deriv_oscU1,
      residual_eq_zero d w0 t h1 h2]
    norm_num
  · rw [deriv_exactSolutionFormula]
    exact oscU1_at_zero d w0 h1 h2

/-- Witness for claim C3 at d = 2, w0 = 20, t = 1/2. -/
theorem claim_C3_witness :
    exact_solution 2 20 (1 / 2) = some (exactSolutionFormula 2 20 (1 / 2)) ∧
      |1 * deriv (deriv (exactSolutionFormula 2 20)) (1 / 2) +
        2 * 2 * deriv (exactSolutionFormula 2 20) (1 / 2) +
        20 ^ 2 * exactSolutionFormula 2 20 (1 / 2)| < 1 / 1000000 ∧
      exactSolutionFormula 2 20 0 = 1 ∧
      deriv (exactSolutionFormula 2 20) 0 = 0 :=
  claim_C3_exact_solution 2 20 (1 / 2) (by norm_num) (by norm_num)

/-- Counterexample to claim C3 as stated: d = −2 < 1 = w0 satisfies the
quantifier of the claim (and the code's `assert d < w0`), but the damping
exceeds the frequency (d² > w0²), `w0**2 - d**2` is negative, and the
returned expression does not satisfy the claimed initial condition
u'(0) = 0: its derivative at 0 is 2. -/
theorem claim_C3_counterexample :
    ((-2 : ℝ) < 1) ∧ deriv (exactSolutionFormula (-2) 1) 0 ≠ 0 := by
  refine ⟨by norm_num, ?_⟩
  rw [deriv_exactSolutionFormula]
  have hw : oscW (-2) 1 = 0 := by
    unfold oscW
    rw [Real.sqrt_eq_zero']
    norm_num
  have hphi : oscPhi (-2) 1 = 0 := by
    unfold oscPhi
    rw [hw]
    simp
  have hA : oscA (-2) 1 = 1 / 2 := by
    unfold oscA
    rw [hphi]
    norm_num
  have hval : oscU1 (-2) 1 0 = 2 := by
    unfold oscU1
    rw [hw, hphi, hA]
    norm_num [Real.exp_zero, Real.cos_zero]
  rw [hval]
  norm_num

/-- Claim C4: calling `exact_solution` with δ ≥ ω₀ fails deterministically —
the assertion raises, no value is produced — and since the forward task
evaluates `exact_solution` on the test grid before its training loop, the
whole run stops before any optimizer step. -/
theorem claim_C4_assert {S : Type} (d w0 t : ℝ) (step : S → S) (s0 : S)
    (h : w0 ≤ d) :
    exact_solution d w0 t = none ∧ forwardProgram d w0 step s0 = none := by
  constructor
  · unfold exact_solution
    rw [if_neg (not_lt.mpr h)]
  · unfold forwardProgram exactSolutionBatch
    rw [if_neg (not_lt.mpr h)]
    rfl

/-- Witness for claim C4 at d = 20, w0 = 2. -/
theorem claim_C4_witness :
    exact_solution 20 2 0 = none ∧
      forwardProgram 20 2 (fun n : ℕ => n) 0 = none :=
  claim_C4_assert 20 2 0 (fun n : ℕ => n) 0 (by norm_num)

/-- Claim C5: in the forward task the physical constants (m, μ, k) used by
the loss are (1, 4, 400) at every iteration and the optimizer owns only the
network tensors, while in the inverse task μ is a single learnable scalar
initialized to 0 and registered with the same optimizer as θ, and one
optimizer step produces the new θ and the new μ from the same update call. -/
theorem claim_C5_parameters (G : InvState → FCN × ℝ)
    (U : FCN × ℝ → FCN × ℝ → FCN × ℝ) (s : InvState) (i : ℕ) :
    muInit = 0 ∧
      inverseOptimParams = pinnParamNames ++ [ParamName.muP] ∧
      ParamName.muP ∉ forwardOptimParams ∧
      (inverseStep G U s).net = (U (G s) (s.net, s.mu)).1 ∧
      (inverseStep G U s).mu = (U (G s) (s.net, s.mu)).2 ∧
      forwardConstsAt i = (1, 4, 400) := by
  refine ⟨rfl, rfl, ?_, rfl, rfl, ?_⟩
  · simp [forwardOptimParams, pinnParamNames]
  · unfold forwardConstsAt muF kF dConst w0Const
    norm_num

/-- Claim C6: in both tasks the training loop performs exactly 15001
optimizer steps and terminates only by exhausting the range — for every body
and every initial state the fold over `range(15001)` executes 15001
iterations and its result is the 15001-fold iterate, with no condition able
to exit earlier. -/
theorem claim_C6_iterations {S : Type} (step : S → S) (s0 : S) :
    runLoop step s0 = (step^[15001] s0, 15001) :=
  runLoop_spec step s0

/-- Claim C7: with the gradient computation and optimizer update fixed (as
they are for a fixed seed), the forward training iteration is a function of
the current state, so any two traces from the same seed-determined initial
state agree at every step; in particular the final parameters coincide. -/
theorem claim_C7_determinism (G : FwdRunState → FCN) (U : FCN → FCN → FCN)
    (s0 : FwdRunState) (f g : ℕ → FwdRunState)
    (hf : IsRunOf (forwardStepFull G U) s0 f)
    (hg : IsRunOf (forwardStepFull G U) s0 g) (n : ℕ) : f n = g n :=
  run_unique (forwardStepFull G U) s0 f g hf hg n

/-- Witness for claim C7: a concrete pair of traces of the forward loop from
a concrete initial state, compared at iteration 15000. -/
theorem claim_C7_witness : fwdRunW 15000 = fwdRunW 15000 :=
  claim_C7_determinism idG idU fwdS0 fwdRunW fwdRunW
    ⟨rfl, fun n => Function.iterate_succ_apply' (forwardStepFull idG idU) n fwdS0⟩
    ⟨rfl, fun n => Function.iterate_succ_apply' (forwardStepFull idG idU) n fwdS0⟩
    15000

/-- Claim C8: across all iterations of either task the boundary point, the
collocation sequence, and (inverse task) the observation pairs generated
once from the analytical solution plus noise stay unchanged: after any
number of loop iterations every data field equals its initial value, the
step writing only θ (plus μ and the μ-history in the inverse task). -/
theorem claim_C8_frame (G : FwdRunState → FCN) (U : FCN → FCN → FCN)
    (s : FwdRunState) (G2 : InvRunState → FCN × ℝ)
    (U2 : FCN × ℝ → FCN × ℝ → FCN × ℝ) (s2 : InvRunState)
    (noise tobs : Fin 40 → ℝ) (n : ℕ) :
    ((forwardStepFull G U)^[n] s).tB = s.tB ∧
      ((forwardStepFull G U)^[n] s).tPhys = s.tPhys ∧
      ((inverseStepFull G2 U2)^[n] s2).tPhys = s2.tPhys ∧
      ((inverseStepFull G2 U2)^[n] s2).tObs = s2.tObs ∧
      ((inverseStepFull G2 U2)^[n] s2).uObs = s2.uObs ∧
      mkUObs noise tobs =
        some (fun j => exactSolutionFormula 2 20 (tobs j) + 0.04 * noise j) := by
  obtain ⟨h1, h2⟩ := forwardIter_frame G U s n
  obtain ⟨h3, h4, h5⟩ := inverseIter_frame G2 U2 s2 n
  exact ⟨h1, h2, h3, h4, h5, mkUObs_eq noise tobs⟩

/-- Claim C10: for every parameter setting and every batch of N collocation
points, the batched network computes row i from input row i alone, one
all-ones reverse-mode pass yields exactly the per-point first derivatives, a
second pass yields the per-point second derivatives, and hence the batched
physics residual at each point equals the pointwise residual
m·NN''(tᵢ) + μ·NN'(tᵢ) + k·NN(tᵢ) with m = 1. -/
theorem claim_C10_autograd (p : FCN) (n : ℕ) (t : Fin n → ℝ) (j : Fin n)
    (mu k : ℝ) :
    p.batch t j = p.apply (t j) ∧
      gradSumOnes (fun v => p.batch v) t j = deriv p.apply (t j) ∧
      gradSumOnes (fun v => gradSumOnes (fun x => p.batch x) v) t j =
        deriv (deriv p.apply) (t j) ∧
      gradSumOnes (fun v => gradSumOnes (fun x => p.batch x) v) t j +
          mu * gradSumOnes (fun v => p.batch v) t j + k * p.batch t j =
        1 * deriv (deriv p.apply) (t j) + mu * deriv p.apply (t j) +
          k * p.apply (t j) := by
  have hb : (fun v : Fin n → ℝ => p.batch v) = fun v i => p.apply (v i) := rfl
  refine ⟨rfl, ?_, ?_, ?_⟩
  · rw [hb]
    exact gradSumOnes_pointwise p.apply t j
  · rw [hb]
    exact gradSumOnes_second p.apply t j
  · rw [hb, gradSumOnes_second p.apply t j, gradSumOnes_pointwise p.apply t j,
      FCN.batch_eq]
    ring

end GradBridge
